import Mathlib

/-!
# Verification of the tag-it push/tag orchestration (src/src/index.ts)

A shallow embedding of the tag-it GitHub Action's core logic.  Pure string
manipulation is translated function-by-function from the TypeScript source;
the interaction with the GitHub REST API, the shell and git is modelled as an
environment record (the responses the external collaborators would give) plus
an explicit trace of write effects.  The external `semver` npm library is not
part of the repository; it is modelled from the spec (section 4.2 of the
design: numeric major.minor.patch increments and lexicographic ordering),
restricted to plain numeric `M.m.p` versions.
-/

namespace TagIt

/-! ## String helpers (character-list based, kernel-reducible) -/

/-- JS `s.includes(pat)`: `pat` occurs as a contiguous substring of `s`. -/
def strContains (s pat : String) : Bool :=
  s.data.tails.any (fun suf => pat.data.isPrefixOf suf)

/-- JS `s.startsWith(pat)`. -/
def strStartsWith (s pat : String) : Bool :=
  pat.data.isPrefixOf s.data

/-- JS `message.split('\n')[0]`: everything before the first newline. -/
def firstLine (message : String) : String :=
  ⟨message.data.takeWhile (fun c => c != '\n')⟩

/-! ## Data model (index.ts lines 8-14) -/

structure CommitInfo where
  message : String
  sha : String
deriving Repr, DecidableEq

inductive BumpType where
  | major
  | minor
  | patch
  | none
deriving Repr, DecidableEq

inductive FloatingTagMode where
  | off
  | major
  | majorPlusMinor
deriving Repr, DecidableEq

/-! ## determineBumpType (index.ts lines 352-389) -/

/-- The three mutable flags of the classification loop. -/
structure BumpFlags where
  hasBreaking : Bool
  hasFeat : Bool
  hasFix : Bool
deriving Repr, DecidableEq

/-- One iteration of the `for (const commit of commits)` loop body
(index.ts lines 357-376). -/
def updateFlags (f : BumpFlags) (commit : CommitInfo) : BumpFlags :=
  let message := commit.message
  let fl := firstLine message
  let f1 :=
    if strContains fl "!:" || strContains message "BREAKING CHANGE:" ||
        strContains message "BREAKING-CHANGE:" then
      { f with hasBreaking := true }
    else f
  let f2 := if strStartsWith fl "feat" then { f1 with hasFeat := true } else f1
  if strStartsWith fl "fix" then { f2 with hasFix := true } else f2

/-- `determineBumpType` (index.ts lines 352-389): flag accumulation over all
commits, resolved by priority breaking > feat > fix > none. -/
def determineBumpType (commits : List CommitInfo) : BumpType :=
  let f := commits.foldl updateFlags ⟨false, false, false⟩
  if f.hasBreaking then BumpType.major
  else if f.hasFeat then BumpType.minor
  else if f.hasFix then BumpType.patch
  else BumpType.none

/-! Spec-side restatement of the classifier, used to compare the loop with the
"any commit" formulation of the spec (spec.md section 4.1 / section 8). -/

/-- A commit carrying a breaking marker per the spec: first line contains
`!:`, or the full message contains `BREAKING CHANGE:` or `BREAKING-CHANGE:`. -/
def isBreakingCommit (c : CommitInfo) : Bool :=
  strContains (firstLine c.message) "!:" ||
    strContains c.message "BREAKING CHANGE:" ||
    strContains c.message "BREAKING-CHANGE:"

/-- A commit whose first line starts with `feat`. -/
def isFeatCommit (c : CommitInfo) : Bool :=
  strStartsWith (firstLine c.message) "feat"

/-- A commit whose first line starts with `fix`. -/
def isFixCommit (c : CommitInfo) : Bool :=
  strStartsWith (firstLine c.message) "fix"

/-- The spec's formulation: any-breaking > any-feat > any-fix > none. -/
def bumpTypeSpec (commits : List CommitInfo) : BumpType :=
  if commits.any isBreakingCommit then BumpType.major
  else if commits.any isFeatCommit then BumpType.minor
  else if commits.any isFixCommit then BumpType.patch
  else BumpType.none

lemma updateFlags_eq (f : BumpFlags) (c : CommitInfo) :
    updateFlags f c =
      ⟨f.hasBreaking || isBreakingCommit c,
       f.hasFeat || isFeatCommit c,
       f.hasFix || isFixCommit c⟩ := by
  unfold updateFlags isBreakingCommit isFeatCommit isFixCommit
  cases hb : strContains (firstLine c.message) "!:" ||
      strContains c.message "BREAKING CHANGE:" ||
      strContains c.message "BREAKING-CHANGE:" <;>
    cases hf : strStartsWith (firstLine c.message) "feat" <;>
      cases hx : strStartsWith (firstLine c.message) "fix" <;>
        simp [hb, hf, hx]

lemma foldl_updateFlags (commits : List CommitInfo) (f : BumpFlags) :
    commits.foldl updateFlags f =
      ⟨f.hasBreaking || commits.any isBreakingCommit,
       f.hasFeat || commits.any isFeatCommit,
       f.hasFix || commits.any isFixCommit⟩ := by
  induction commits generalizing f with
  | nil => simp
  | cons c cs ih =>
    simp only [List.foldl_cons, List.any_cons]
    rw [updateFlags_eq, ih]
    simp [Bool.or_assoc]

/-- C1: For every list of commits, the bump classification is decided by three
flags accumulated over all commits and resolved by strict priority: it is
`major` if any commit's first line contains `!:` or any commit's full message
contains `BREAKING CHANGE:` or `BREAKING-CHANGE:`; otherwise `minor` if any
commit's first line starts with `feat`; otherwise `patch` if any commit's
first line starts with `fix`; otherwise `none`. -/
theorem determineBumpType_eq_spec (commits : List CommitInfo) :
    determineBumpType commits = bumpTypeSpec commits := by
  unfold determineBumpType bumpTypeSpec
  rw [foldl_updateFlags]
  simp

/-! ## Semver model

Modelled from the spec: the external `semver` npm library (`valid`, `inc`,
`major`, `minor`, `rcompare`) is not part of the repository; spec.md
sections 3 and 4.2 describe versions as major.minor.patch triples with
numeric increments and lexicographic ordering.  The model is restricted to
plain numeric `M.m.p` version strings (no pre-release/build metadata). -/

structure Semver where
  major : Nat
  minor : Nat
  patch : Nat
deriving Repr, DecidableEq

/-- Numeric value of a decimal digit character. -/
def charDigit (c : Char) : Nat := c.toNat - 48

/-- Parse a non-empty all-digit character list as a decimal number. -/
def parseNatDigits (l : List Char) : Option Nat :=
  if !l.isEmpty && l.all Char.isDigit then
    some (Nat.ofDigits 10 ((l.map charDigit).reverse))
  else
    Option.none

/-- The decimal digit character for `d < 10`. -/
def digitChar (d : Nat) : Char := Char.ofNat (48 + d)

/-- Fuel-driven (structurally recursive, kernel-reducible) most-significant
digit first decimal rendering. -/
def natDigitsCore : Nat → Nat → List Char → List Char
  | 0, _, acc => acc
  | fuel + 1, n, acc =>
    if n < 10 then digitChar n :: acc
    else natDigitsCore fuel (n / 10) (digitChar (n % 10) :: acc)

/-- Decimal rendering of a natural number as a character list. -/
def natToChars (n : Nat) : List Char := natDigitsCore (n + 1) n []

/-- Decimal rendering of a natural number (JS number-to-string coercion). -/
def natToString (n : Nat) : String := ⟨natToChars n⟩

/-- `semver.valid`-style parsing of a plain `M.m.p` version string. -/
def parseSemver (s : String) : Option Semver :=
  match s.data.splitOn '.' with
  | [a, b, c] =>
    match parseNatDigits a, parseNatDigits b, parseNatDigits c with
    | some vM, some vm, some vp => some ⟨vM, vm, vp⟩
    | _, _, _ => Option.none
  | _ => Option.none

/-- Canonical rendering `"M.m.p"` of a version. -/
def renderSemver (v : Semver) : String :=
  ⟨natToChars v.major ++ '.' :: (natToChars v.minor ++ '.' :: natToChars v.patch)⟩

/-- Strict lexicographic semver order on parsed versions. -/
def SemverLt (a b : Semver) : Prop :=
  a.major < b.major ∨
    (a.major = b.major ∧
      (a.minor < b.minor ∨ (a.minor = b.minor ∧ a.patch < b.patch)))

/-- Non-strict lexicographic semver order. -/
def SemverLe (a b : Semver) : Prop :=
  a.major < b.major ∨
    (a.major = b.major ∧
      (a.minor < b.minor ∨ (a.minor = b.minor ∧ a.patch ≤ b.patch)))

instance (a b : Semver) : Decidable (SemverLt a b) :=
  inferInstanceAs (Decidable (_ ∨ _))

instance (a b : Semver) : Decidable (SemverLe a b) :=
  inferInstanceAs (Decidable (_ ∨ _))

lemma semverLe_refl (a : Semver) : SemverLe a a := by
  unfold SemverLe
  omega

lemma semverLe_total (a b : Semver) : SemverLe a b ∨ SemverLe b a := by
  unfold SemverLe
  omega

lemma semverLe_trans {a b c : Semver} (hab : SemverLe a b) (hbc : SemverLe b c) :
    SemverLe a c := by
  unfold SemverLe at *
  omega

/-- `semver.inc` on the parsed triple (spec.md section 4.2): `major`
increments major and zeroes minor/patch; `minor` increments minor and zeroes
patch; `patch` increments patch.  The orchestrator only calls it with a bump
different from `none`. -/
def incSemver (v : Semver) : BumpType → Semver
  | BumpType.major => ⟨v.major + 1, 0, 0⟩
  | BumpType.minor => ⟨v.major, v.minor + 1, 0⟩
  | BumpType.patch => ⟨v.major, v.minor, v.patch + 1⟩
  | BumpType.none => v

/-- `semver.inc(version, bump)` on strings: `null` when the input does not
parse. -/
def semverInc (s : String) (b : BumpType) : Option String :=
  (parseSemver s).map (fun v => renderSemver (incSemver v b))

/-- `semver.major(version)` (always fed a valid version by the code). -/
def semverMajor (s : String) : Nat := ((parseSemver s).getD ⟨0, 0, 0⟩).major

/-- `semver.minor(version)` (always fed a valid version by the code). -/
def semverMinor (s : String) : Nat := ((parseSemver s).getD ⟨0, 0, 0⟩).minor

/-! ### Rendering/parsing roundtrip -/

lemma charDigit_digitChar {d : Nat} (h : d < 10) : charDigit (digitChar d) = d := by
  interval_cases d <;> rfl

lemma isDigit_digitChar {d : Nat} (h : d < 10) : (digitChar d).isDigit = true := by
  interval_cases d <;> rfl

lemma digitChar_ne_dot {d : Nat} (h : d < 10) : digitChar d ≠ '.' := by
  interval_cases d <;> decide

lemma natDigitsCore_eq (fuel : Nat) :
    ∀ (n : Nat) (acc : List Char), 0 < n → n < 10 ^ fuel →
      natDigitsCore fuel n acc = (Nat.digits 10 n).reverse.map digitChar ++ acc := by
  induction fuel with
  | zero =>
    intro n acc hpos hlt
    simp at hlt
    omega
  | succ fuel ih =>
    intro n acc hpos hlt
    unfold natDigitsCore
    by_cases h10 : n < 10
    · rw [if_pos h10]
      rw [Nat.digits_def' (show (1:Nat) < 10 by norm_num) hpos]
      rw [Nat.mod_eq_of_lt h10, Nat.div_eq_of_lt h10]
      simp
    · rw [if_neg h10]
      have hdivpos : 0 < n / 10 := Nat.div_pos (by omega) (by norm_num)
      have hdivlt : n / 10 < 10 ^ fuel := by
        have : n < 10 * 10 ^ fuel := by
          calc n < 10 ^ (fuel + 1) := hlt
          _ = 10 * 10 ^ fuel := by ring
        exact Nat.div_lt_of_lt_mul this
      rw [ih (n / 10) _ hdivpos hdivlt]
      rw [Nat.digits_def' (show (1:Nat) < 10 by norm_num) hpos]
      simp

lemma natToChars_eq {n : Nat} (hpos : 0 < n) :
    natToChars n = (Nat.digits 10 n).reverse.map digitChar := by
  have h1 : n < 10 ^ n := Nat.lt_pow_self (by norm_num) n
  have h2 : (10 : Nat) ^ n ≤ 10 ^ (n + 1) :=
    Nat.pow_le_pow_right (by norm_num) (by omega)
  simpa using natDigitsCore_eq (n + 1) n [] hpos (by omega)

lemma mem_natToChars_isDigit {n : Nat} {c : Char} (hc : c ∈ natToChars n) :
    c.isDigit = true := by
  by_cases hpos : 0 < n
  · rw [natToChars_eq hpos] at hc
    rcases List.mem_map.mp hc with ⟨d, hd, rfl⟩
    exact isDigit_digitChar
      (Nat.digits_lt_base (by norm_num) (List.mem_reverse.mp hd))
  · have : n = 0 := by omega
    subst this
    simp only [natToChars, natDigitsCore] at hc
    rw [if_pos (by norm_num)] at hc
    rcases List.mem_singleton.mp hc with rfl
    rfl

lemma mem_natToChars_ne_dot {n : Nat} {c : Char} (hc : c ∈ natToChars n) :
    c ≠ '.' := by
  intro h
  subst h
  exact absurd (mem_natToChars_isDigit hc) (by decide)

lemma natToChars_ne_nil (n : Nat) : natToChars n ≠ [] := by
  by_cases hpos : 0 < n
  · rw [natToChars_eq hpos]
    intro h
    rw [List.map_eq_nil_iff, List.reverse_eq_nil_iff] at h
    exact Nat.digits_ne_nil_iff_ne_zero.mpr (by omega) h
  · have : n = 0 := by omega
    subst this
    decide

lemma parseNatDigits_natToChars (n : Nat) :
    parseNatDigits (natToChars n) = some n := by
  by_cases hpos : 0 < n
  · unfold parseNatDigits
    rw [if_pos ?_]
    · congr 1
      rw [natToChars_eq hpos]
      rw [List.map_map]
      have hmap : (Nat.digits 10 n).reverse.map (charDigit ∘ digitChar) =
          (Nat.digits 10 n).reverse.map id := by
        apply List.map_congr_left
        intro d hd
        simp only [Function.comp_apply, id_eq]
        exact charDigit_digitChar
          (Nat.digits_lt_base (by norm_num) (List.mem_reverse.mp hd))
      rw [hmap, List.map_id, List.reverse_reverse]
      exact Nat.ofDigits_digits 10 n
    · rw [Bool.and_eq_true]
      constructor
      · simp [List.isEmpty_iff, natToChars_ne_nil n]
      · rw [List.all_eq_true]
        intro c hc
        exact mem_natToChars_isDigit hc
  · have : n = 0 := by omega
    subst this
    decide

lemma splitOn_renderSemver (v : Semver) :
    (renderSemver v).data.splitOn '.' =
      [natToChars v.major, natToChars v.minor, natToChars v.patch] := by
  have hfree : ∀ m : Nat, ∀ x ∈ natToChars m, ¬((x == '.') = true) := by
    intro m x hx
    simp only [beq_iff_eq]
    exact mem_natToChars_ne_dot hx
  show (natToChars v.major ++ '.' :: (natToChars v.minor ++ '.' :: natToChars v.patch)).splitOn '.' = _
  unfold List.splitOn
  rw [List.splitOnP_first (fun x => x == '.') (natToChars v.major) (hfree v.major)
      '.' (by decide) (natToChars v.minor ++ '.' :: natToChars v.patch)]
  rw [List.splitOnP_first (fun x => x == '.') (natToChars v.minor) (hfree v.minor)
      '.' (by decide) (natToChars v.patch)]
  rw [List.splitOnP_eq_single (fun x => x == '.') (natToChars v.patch) (hfree v.patch)]

/-- Parsing a rendered version recovers it. -/
lemma parseSemver_renderSemver (v : Semver) :
    parseSemver (renderSemver v) = some v := by
  unfold parseSemver
  rw [splitOn_renderSemver]
  simp [parseNatDigits_natToChars]

/-! ## getLatestTag (index.ts lines 264-295)

The tag prefix is stripped with `name.replace(new RegExp('^' + tagPre), '')`
(index.ts lines 136, 281, 285-286): the configured prefix is spliced into an
anchored regular expression, so regex metacharacters in the prefix change its
meaning.  The model interprets the pattern as an anchored JS regex over the
constructs a prefix can reasonably produce — plain characters and the greedy
(backtracking) `+` quantifier; for a prefix free of regex metacharacters this
is exactly a literal prefix match, proved in `stripTagPre_plain` below. -/

/-- One token of the anchored pattern `'^' + tagPre`: a plain character or a
character under a `+` quantifier. -/
inductive RegexToken where
  | lit (c : Char)
  | plus (c : Char)
deriving Repr, DecidableEq

/-- Tokenize the spliced pattern: a character followed by `+` becomes a
quantified atom, any other character a literal. -/
def parseRegexTokens : List Char → List RegexToken
  | [] => []
  | [c] => [RegexToken.lit c]
  | c :: d :: rest =>
    if d = '+' then RegexToken.plus c :: parseRegexTokens rest
    else RegexToken.lit c :: parseRegexTokens (d :: rest)

/-- Anchored match of the token list against the start of a string: the
number of characters consumed, preferring the longest (greedy) repetition
with backtracking, as JS regexes do. -/
def matchTokens : List RegexToken → List Char → Option Nat
  | [], _ => some 0
  | RegexToken.lit _ :: _, [] => Option.none
  | RegexToken.lit c :: ts, x :: xs =>
    if x = c then (matchTokens ts xs).map (· + 1) else Option.none
  | RegexToken.plus _ :: _, [] => Option.none
  | RegexToken.plus c :: ts, x :: xs =>
    if x = c then
      match matchTokens (RegexToken.plus c :: ts) xs with
      | some n => some (n + 1)
      | Option.none => (matchTokens ts xs).map (· + 1)
    else Option.none

/-- Models `name.replace(new RegExp('^' + tagPre), '')`: remove the anchored
regex match when there is one. -/
def stripTagPre (tagPre name : String) : String :=
  match matchTokens (parseRegexTokens tagPre.data) name.data with
  | some n => ⟨name.data.drop n⟩
  | Option.none => name

/-- The JS regex metacharacters: a prefix avoiding all of them is spliced
into `'^' + tagPre` as a literal. -/
def regexMeta : List Char :=
  ['^', '$', '.', '*', '+', '?', '(', ')', '[', ']', '|', '/',
   Char.ofNat 92, Char.ofNat 123, Char.ofNat 125]

lemma parseRegexTokens_plain :
    ∀ l : List Char, (∀ c ∈ l, c ∉ regexMeta) →
      parseRegexTokens l = l.map RegexToken.lit
  | [], _ => rfl
  | [_], _ => rfl
  | c :: d :: rest, h => by
    have hd : ¬ d = '+' := by
      intro hEq
      exact h d (by simp) (by rw [hEq]; simp [regexMeta])
    rw [parseRegexTokens, if_neg hd,
      parseRegexTokens_plain (d :: rest) (fun x hx => h x (List.mem_cons_of_mem _ hx))]
    rfl

lemma matchTokens_lits :
    ∀ l xs : List Char,
      matchTokens (l.map RegexToken.lit) xs =
        if l.isPrefixOf xs then some l.length else Option.none
  | [], xs => by simp [matchTokens, List.isPrefixOf]
  | c :: l, [] => by simp [matchTokens, List.isPrefixOf]
  | c :: l, x :: xs => by
    simp only [List.map_cons, matchTokens]
    by_cases hx : x = c
    · rw [if_pos hx, matchTokens_lits l xs]
      subst hx
      by_cases hp : l.isPrefixOf xs
      · simp [List.isPrefixOf, hp]
      · simp [List.isPrefixOf, hp]
    · rw [if_neg hx]
      have : (c == x) = false := by
        simp only [beq_eq_false_iff_ne]
        exact fun hEq => hx hEq.symm
      simp [List.isPrefixOf, this]

/-- For a prefix free of regex metacharacters, the regex strip is exactly a
literal prefix drop. -/
lemma stripTagPre_plain {p s : String} (h : ∀ c ∈ p.data, c ∉ regexMeta) :
    stripTagPre p s =
      if p.data.isPrefixOf s.data then String.mk (s.data.drop p.data.length)
      else s := by
  unfold stripTagPre
  rw [parseRegexTokens_plain p.data h, matchTokens_lits]
  by_cases hp : p.data.isPrefixOf s.data
  · rw [if_pos hp, if_pos hp]
  · rw [if_neg hp, if_neg hp]

/-- The semver value of a tag's suffix, defaulting to `0.0.0`; only ever used
on tags whose suffix parses. -/
def verOf (tagPre name : String) : Semver :=
  (parseSemver (stripTagPre tagPre name)).getD ⟨0, 0, 0⟩

/-- The ordering produced by JS `sort(semver.rcompare)`: a tag sorts no later
than another when its suffix version is no smaller (descending order). -/
def tagGe (tagPre : String) (a b : String) : Prop :=
  SemverLe (verOf tagPre b) (verOf tagPre a)

instance (tagPre : String) : DecidableRel (tagGe tagPre) := fun _ _ =>
  inferInstanceAs (Decidable (SemverLe _ _))

instance (tagPre : String) : IsTotal String (tagGe tagPre) :=
  ⟨fun a b => semverLe_total (verOf tagPre b) (verOf tagPre a)⟩

instance (tagPre : String) : IsTrans String (tagGe tagPre) :=
  ⟨fun _ _ _ hab hbc => semverLe_trans hbc hab⟩

/-- A tag name that survives both filters of `getLatestTag`: it starts with
the configured prefix and its suffix parses as valid semver. -/
def qualifiesTag (tagPre name : String) : Bool :=
  strStartsWith name tagPre && (parseSemver (stripTagPre tagPre name)).isSome

/-- The pure core of `getLatestTag` (index.ts lines 277-290): filter the tag
names to the prefixed valid-semver ones, sort them descending by suffix
version (JS `sort` is modelled by a sorting algorithm over the comparator
ordering), and take the first. -/
def getLatestTagFrom (tags : List String) (tagPre : String) : Option String :=
  (List.insertionSort (tagGe tagPre)
      ((tags.filter (fun name => strStartsWith name tagPre)).filter
        (fun name => (parseSemver (stripTagPre tagPre name)).isSome))).head?

/-- `getLatestTag` (index.ts lines 264-295): on an API failure (`tagsResult =
none`) the catch block logs a warning and returns null. -/
def getLatestTag (tagsResult : Option (List String)) (tagPre : String) :
    Option String :=
  match tagsResult with
  | some tags => getLatestTagFrom tags tagPre
  | Option.none => Option.none

lemma mem_latestFiltered {tags : List String} {tagPre u : String} :
    u ∈ (tags.filter (fun name => strStartsWith name tagPre)).filter
        (fun name => (parseSemver (stripTagPre tagPre name)).isSome) ↔
      u ∈ tags ∧ qualifiesTag tagPre u = true := by
  simp only [List.mem_filter, qualifiesTag, Bool.and_eq_true]
  tauto

/-- C6 counterexample, evaluating the code's lookup at a concrete input: with
configured tag prefix `v+` and the single tag `v+1.2.3`, the tag starts with
the prefix and its suffix — the tag name with the prefix removed, `1.2.3` —
parses as valid semver, so the claim requires the lookup to return the tag;
but the code splices the prefix into the regex `/^v+/`, which consumes only
the leading `v`, so the validity check runs on `+1.2.3`, the tag is dropped,
and the lookup returns none. -/
theorem getLatestTag_counterexample :
    strStartsWith "v+1.2.3" "v+" = true ∧
    (parseSemver (String.mk (String.data "v+1.2.3" |>.drop
      (String.data "v+").length))).isSome = true ∧
    stripTagPre "v+" "v+1.2.3" = "+1.2.3" ∧
    getLatestTagFrom ["v+1.2.3"] "v+" = Option.none := by
  decide

/-- C6 (amended): For every configured tag prefix free of JS-regex
metacharacters (so that the spliced pattern `'^' + tagPrefix` matches the
prefix literally) and every list of up to 100 repository tags, the latest-tag
lookup returns a tag that starts with the prefix and whose suffix — the tag
name with the prefix literally removed, as the third conjunct records —
parses as valid semver (spec-modelled: plain numeric major.minor.patch) and
is maximal in semver ordering among such tags, or none when no tag
qualifies. -/
theorem getLatestTag_maximal (tagPre : String) (tags : List String)
    (hplain : ∀ c ∈ tagPre.data, c ∉ regexMeta)
    (hlen : tags.length ≤ 100) :
    (∀ t, getLatestTagFrom tags tagPre = some t →
        t ∈ tags ∧ qualifiesTag tagPre t = true ∧
        stripTagPre tagPre t = String.mk (t.data.drop tagPre.data.length) ∧
          ∀ u ∈ tags, qualifiesTag tagPre u = true →
            SemverLe (verOf tagPre u) (verOf tagPre t)) ∧
    (getLatestTagFrom tags tagPre = Option.none →
        ∀ u ∈ tags, qualifiesTag tagPre u = false) := by
  have hlit : ∀ t : String, qualifiesTag tagPre t = true →
      stripTagPre tagPre t = String.mk (t.data.drop tagPre.data.length) := by
    intro t htq
    have hpre : tagPre.data.isPrefixOf t.data = true := by
      have := (Bool.and_eq_true _ _).mp htq
      exact this.1
    rw [stripTagPre_plain hplain, if_pos hpre]
  unfold getLatestTagFrom
  set filtered := (tags.filter (fun name => strStartsWith name tagPre)).filter
    (fun name => (parseSemver (stripTagPre tagPre name)).isSome) with hfiltered
  have hsorted := List.sorted_insertionSort (tagGe tagPre) filtered
  constructor
  · intro t ht
    cases hs : List.insertionSort (tagGe tagPre) filtered with
    | nil => rw [hs] at ht; simp at ht
    | cons hd rest =>
      rw [hs] at ht
      simp only [List.head?_cons, Option.some.injEq] at ht
      have htmem : t ∈ filtered := by
        have hmem : t ∈ List.insertionSort (tagGe tagPre) filtered := by
          rw [hs, ← ht]
          exact List.mem_cons_self _ _
        exact (List.mem_insertionSort (tagGe tagPre)).mp hmem
      have htq := mem_latestFiltered.mp htmem
      refine ⟨htq.1, htq.2, hlit t htq.2, ?_⟩
      intro u hu huq
      have humem : u ∈ List.insertionSort (tagGe tagPre) filtered := by
        rw [List.mem_insertionSort]
        exact mem_latestFiltered.mpr ⟨hu, huq⟩
      rw [hs] at humem
      rcases List.mem_cons.mp humem with rfl | humem
      · rw [← ht]
        exact semverLe_refl _
      · rw [← ht]
        rw [hs] at hsorted
        exact List.rel_of_sorted_cons hsorted u humem
  · intro hnone u hu
    have hnil : List.insertionSort (tagGe tagPre) filtered = [] := by
      cases hs : List.insertionSort (tagGe tagPre) filtered with
      | nil => rfl
      | cons hd rest => rw [hs] at hnone; simp at hnone
    have hfnil : filtered = [] :=
      List.Perm.eq_nil (hnil ▸ List.perm_insertionSort (tagGe tagPre) filtered).symm
    by_contra hq
    have : u ∈ filtered := mem_latestFiltered.mpr ⟨hu, by
      cases h : qualifiesTag tagPre u
      · exact absurd h hq
      · rfl⟩
    rw [hfnil] at this
    simp at this

/-! ## Orchestrator model (handlePush, index.ts lines 93-195)

The GitHub API, shell and git are external collaborators; an `Env` record
holds the responses they would give in a run, and the handler produces an
explicit trace of write effects and outputs. -/

/-- Action configuration inputs after parsing (index.ts lines 37-41). -/
structure Config where
  tagPre : String
  initialVersion : String
  floatingTagMode : FloatingTagMode
  createRelease : Bool
  preReleaseCommand : Option String
deriving Repr, DecidableEq

/-- Outcome of the configured pre-release command and its commit/push chain
(index.ts lines 391-446): the command exits non-zero; or it succeeds with a
clean working tree; or it produces changes and the subsequent git
add/commit/push chain either yields a new commit sha or fails. -/
inductive PreOutcome where
  | cmdFails
  | noChanges
  | changes (gitResult : Option String)
deriving Repr, DecidableEq

/-- The external world of one push run: the event payload and the responses
of the GitHub API and of git.  `Option.none` in a `...Result` field models
the corresponding API call throwing. -/
structure Env where
  ref : String
  payloadDefaultBranch : Option String
  sha : String
  tagsResult : Option (List String)
  listCommitsResult : Option (List CommitInfo)
  compareResult : Option (List CommitInfo)
  existingRefs : List String
  preOutcome : PreOutcome
  releaseUrl : Option String
deriving Repr, DecidableEq

/-- Observable write effects and outputs of a run. -/
inductive Effect where
  | setOutput (name value : String)
  | createRef (tag sha : String)
  | updateRef (tag sha : String)
  | createOrUpdateRelease (tag : String)
  | setFailed (msg : String)
deriving Repr, DecidableEq

/-- `getCommitsSinceTag` (index.ts lines 297-350): with no prior tag, list
the most recent commits; with a tag, resolve it and compare against HEAD.
Any API failure is caught and yields the empty list. -/
def getCommitsSinceTag (env : Env) (tag : Option String) : List CommitInfo :=
  match tag with
  | Option.none => env.listCommitsResult.getD []
  | some _ => env.compareResult.getD []

/-- `runPreReleaseCommandIfSet` (index.ts lines 391-446): returns the sha to
tag, or an exception that propagates to the caller; a failing user command
additionally reports failure before rethrowing (lines 414-421). -/
def runPreRelease (cmd : Option String) (env : Env) :
    List Effect × Except String String :=
  match cmd with
  | Option.none => ([], Except.ok env.sha)
  | some _ =>
    match env.preOutcome with
    | PreOutcome.cmdFails =>
        ([Effect.setFailed "Pre-release command failed"],
         Except.error "pre-release command failed")
    | PreOutcome.noChanges => ([], Except.ok env.sha)
    | PreOutcome.changes (some newSha) => ([], Except.ok newSha)
    | PreOutcome.changes Option.none => ([], Except.error "git command failed")

/-- `updateFloatingTag` (index.ts lines 463-488): a forced update of the
existing reference, falling back to creating it when it does not exist; both
outcomes succeed. -/
def updateFloatingTagEffect (env : Env) (tag sha : String) : Effect :=
  if tag ∈ env.existingRefs then Effect.updateRef tag sha
  else Effect.createRef tag sha

/-- `upsertReleaseWithGeneratedNotes` (index.ts lines 197-262): create or
update the release; every failure inside is caught, so it never throws; the
`release-url` output is set only when a URL comes back (lines 161-174). -/
def upsertRelease (env : Env) (tag : String) : List Effect :=
  Effect.createOrUpdateRelease tag ::
    (match env.releaseUrl with
     | some url => [Effect.setOutput "release-url" url]
     | Option.none => [])

/-- `bump-type` output rendering. -/
def bumpTypeStr : BumpType → String
  | BumpType.major => "major"
  | BumpType.minor => "minor"
  | BumpType.patch => "patch"
  | BumpType.none => "none"

/-- Floating-tag maintenance (index.ts lines 176-194): skipped for major
version 0; both floating tags are updated to `context.sha` (the trigger
commit). -/
def floatingEffects (cfg : Config) (env : Env) (newVersion : String) :
    List Effect :=
  if cfg.floatingTagMode ≠ FloatingTagMode.off then
    let majorVersion := semverMajor newVersion
    if majorVersion = 0 then []
    else
      let floatingTagName := cfg.tagPre ++ natToString majorVersion
      [updateFloatingTagEffect env floatingTagName env.sha,
       Effect.setOutput "floating-tag" floatingTagName] ++
      (if cfg.floatingTagMode = FloatingTagMode.majorPlusMinor then
        let minorVersion := semverMinor newVersion
        let floatingMinorTagName :=
          cfg.tagPre ++ natToString majorVersion ++ "." ++ natToString minorVersion
        [updateFloatingTagEffect env floatingMinorTagName env.sha,
         Effect.setOutput "floating-minor-tag" floatingMinorTagName]
       else [])
  else []

/-- Result of the push handler: the effect trace, an exception propagating to
`run`'s catch block (which reports failure), and — as an observation aid —
the resolved new version when version resolution succeeded. -/
structure HandleResult where
  effects : List Effect
  thrown : Option String
  newVersion : Option String
deriving Repr, DecidableEq

/-- The tail of `handlePush` once the bump type and new version are resolved
(index.ts lines 146-194): pre-release hook, immutable tag creation
(`createRef` throws when the reference exists, index.ts lines 448-461),
outputs, optional release, floating tags. -/
def finishRelease (cfg : Config) (env : Env) (bumpType : BumpType)
    (newVersion : String) : HandleResult :=
  let newTag := cfg.tagPre ++ newVersion
  let pre := runPreRelease cfg.preReleaseCommand env
  match pre.2 with
  | Except.error msg => ⟨pre.1, some msg, some newVersion⟩
  | Except.ok shaToTag =>
    if newTag ∈ env.existingRefs then
      ⟨pre.1, some ("Reference already exists: " ++ newTag), some newVersion⟩
    else
      ⟨pre.1 ++
        [Effect.createRef newTag shaToTag,
         Effect.setOutput "new-tag" newTag,
         Effect.setOutput "bump-type" (bumpTypeStr bumpType)] ++
        (if cfg.createRelease then upsertRelease env newTag else []) ++
        floatingEffects cfg env newVersion,
       Option.none, some newVersion⟩

/-- `handlePush` (index.ts lines 93-195). -/
def handlePush (cfg : Config) (env : Env) : HandleResult :=
  let defaultBranch := env.payloadDefaultBranch.getD "main"
  if env.ref ≠ "refs/heads/" ++ defaultBranch ∧ env.ref ≠ "refs/heads/main" ∧
      env.ref ≠ "refs/heads/master" then
    ⟨[Effect.setOutput "bump-type" "none"], Option.none, Option.none⟩
  else
    let latestTag := getLatestTag env.tagsResult cfg.tagPre
    let commits := getCommitsSinceTag env latestTag
    if commits.isEmpty then
      ⟨[Effect.setOutput "bump-type" "none"], Option.none, Option.none⟩
    else
      let bumpType := determineBumpType commits
      if bumpType = BumpType.none then
        ⟨[Effect.setOutput "bump-type" "none"], Option.none, Option.none⟩
      else
        let currentVersion :=
          match latestTag with
          | some t => stripTagPre cfg.tagPre t
          | Option.none => cfg.initialVersion
        match semverInc currentVersion bumpType with
        | Option.none =>
            ⟨[Effect.setFailed ("Failed to increment version from " ++ currentVersion)],
             Option.none, Option.none⟩
        | some newVersion => finishRelease cfg env bumpType newVersion

/-- `run`'s catch block (index.ts lines 56-62): a propagated exception is
reported through `setFailed`. -/
def runPush (cfg : Config) (env : Env) : List Effect :=
  let r := handlePush cfg env
  match r.thrown with
  | some msg => r.effects ++ [Effect.setFailed msg]
  | Option.none => r.effects

def isSetFailed : Effect → Bool
  | Effect.setFailed _ => true
  | _ => false

/-- The run terminates with a failure status iff some `setFailed` was
reported. -/
def runFailed (cfg : Config) (env : Env) : Bool :=
  (runPush cfg env).any isSetFailed

/-- The branch guard of `handlePush` (index.ts line 106) accepts the ref. -/
def branchOk (env : Env) : Prop :=
  env.ref = "refs/heads/" ++ env.payloadDefaultBranch.getD "main" ∨
    env.ref = "refs/heads/main" ∨ env.ref = "refs/heads/master"

instance (env : Env) : Decidable (branchOk env) :=
  inferInstanceAs (Decidable (_ ∨ _))

/-! ## Structural lemmas about the push handler -/

lemma finishRelease_newVersion (cfg : Config) (env : Env) (bt : BumpType)
    (nv : String) : (finishRelease cfg env bt nv).newVersion = some nv := by
  unfold finishRelease
  cases hpre : (runPreRelease cfg.preReleaseCommand env).2 with
  | error msg => simp [hpre]
  | ok sha =>
    simp only [hpre]
    by_cases h : cfg.tagPre ++ nv ∈ env.existingRefs
    · simp [h]
    · simp [h]

lemma runPreRelease_effects_shape (cmd : Option String) (env : Env) :
    ∀ e ∈ (runPreRelease cmd env).1, e = Effect.setFailed "Pre-release command failed" := by
  rcases cmd with _ | c
  · intro e he
    simp [runPreRelease] at he
  · rcases hp : env.preOutcome with _ | _ | g
    · intro e he
      simp [runPreRelease, hp] at he
      exact he
    · intro e he
      simp [runPreRelease, hp] at he
    · rcases g with _ | s <;>
        (intro e he; simp [runPreRelease, hp] at he)

lemma guardFail_eq {cfg : Config} {env : Env} (h : ¬ branchOk env) :
    handlePush cfg env =
      ⟨[Effect.setOutput "bump-type" "none"], Option.none, Option.none⟩ := by
  have hc : env.ref ≠ "refs/heads/" ++ env.payloadDefaultBranch.getD "main" ∧
      env.ref ≠ "refs/heads/main" ∧ env.ref ≠ "refs/heads/master" := by
    unfold branchOk at h
    push_neg at h
    exact h
  simp only [handlePush]
  rw [if_pos hc]

lemma guard_cond_false {env : Env} (hb : branchOk env) :
    ¬(env.ref ≠ "refs/heads/" ++ env.payloadDefaultBranch.getD "main" ∧
      env.ref ≠ "refs/heads/main" ∧ env.ref ≠ "refs/heads/master") := by
  intro hc
  rcases hb with h1 | h1 | h1
  · exact hc.1 h1
  · exact hc.2.1 h1
  · exact hc.2.2 h1

lemma bumpNone_eq {cfg : Config} {env : Env}
    (h : determineBumpType
        (getCommitsSinceTag env (getLatestTag env.tagsResult cfg.tagPre)) =
      BumpType.none) :
    handlePush cfg env =
      ⟨[Effect.setOutput "bump-type" "none"], Option.none, Option.none⟩ := by
  by_cases hb : branchOk env
  · simp only [handlePush]
    rw [if_neg (guard_cond_false hb)]
    by_cases hnil :
        getCommitsSinceTag env (getLatestTag env.tagsResult cfg.tagPre) = []
    · rw [if_pos (by simp [hnil])]
    · rw [if_neg (by simpa [List.isEmpty_iff] using hnil)]
      rw [if_pos h]
  · exact guardFail_eq hb

lemma emptyCommits_eq {cfg : Config} {env : Env}
    (h : getCommitsSinceTag env (getLatestTag env.tagsResult cfg.tagPre) = []) :
    handlePush cfg env =
      ⟨[Effect.setOutput "bump-type" "none"], Option.none, Option.none⟩ :=
  bumpNone_eq (by rw [h]; rfl)

lemma handlePush_newVersion_some {cfg : Config} {env : Env} {v : String}
    (h : (handlePush cfg env).newVersion = some v) :
    ∃ bt, handlePush cfg env = finishRelease cfg env bt v := by
  by_cases hb : branchOk env
  · by_cases hbn : determineBumpType
        (getCommitsSinceTag env (getLatestTag env.tagsResult cfg.tagPre)) =
      BumpType.none
    · rw [bumpNone_eq hbn] at h
      simp at h
    · have hnil : ¬ getCommitsSinceTag env (getLatestTag env.tagsResult cfg.tagPre) = [] := by
        intro hnil
        exact hbn (by rw [hnil]; rfl)
      simp only [handlePush] at h ⊢
      rw [if_neg (guard_cond_false hb)] at h ⊢
      rw [if_neg (by simpa [List.isEmpty_iff] using hnil)] at h ⊢
      rw [if_neg hbn] at h ⊢
      rcases hinc : semverInc
          (match getLatestTag env.tagsResult cfg.tagPre with
           | some t => stripTagPre cfg.tagPre t
           | Option.none => cfg.initialVersion)
          (determineBumpType
            (getCommitsSinceTag env (getLatestTag env.tagsResult cfg.tagPre)))
        with _ | nv
      · rw [hinc] at h
        simp at h
      · rw [hinc] at h
        simp only [finishRelease_newVersion, Option.some.injEq] at h
        subst h
        exact ⟨_, rfl⟩
  · rw [guardFail_eq hb] at h
    simp at h

/-! ## Claim theorems about the push handler -/

/-- C10: On every short-circuit path of the push handler (push ref not
accepted by the branch guard, empty commit list, or classification `none`),
the result is exactly one `bump-type = none` output: no tag creation,
floating-tag update or release operation is invoked and no exception is
thrown, so the remote tag and release state is unchanged. -/
theorem shortCircuit_frame (cfg : Config) (env : Env)
    (h : ¬ branchOk env ∨
      getCommitsSinceTag env (getLatestTag env.tagsResult cfg.tagPre) = [] ∨
      determineBumpType
          (getCommitsSinceTag env (getLatestTag env.tagsResult cfg.tagPre)) =
        BumpType.none) :
    handlePush cfg env =
      ⟨[Effect.setOutput "bump-type" "none"], Option.none, Option.none⟩ := by
  rcases h with h | h | h
  · exact guardFail_eq h
  · exact emptyCommits_eq h
  · exact bumpNone_eq h

def cfgW10 : Config := ⟨"v", "0.0.0", FloatingTagMode.major, false, Option.none⟩

def envW10 : Env :=
  ⟨"refs/heads/main", some "main", "headsha", some [], some [⟨"docs: d", "c1"⟩],
   some [], [], PreOutcome.noChanges, Option.none⟩

theorem shortCircuit_frame_witness :
    handlePush cfgW10 envW10 =
      ⟨[Effect.setOutput "bump-type" "none"], Option.none, Option.none⟩ :=
  shortCircuit_frame cfgW10 envW10 (Or.inr (Or.inr (by decide)))

def cfgC3 : Config := ⟨"v", "0.0.0", FloatingTagMode.off, false, Option.none⟩

/-- Default branch `develop`, but the push ref is `refs/heads/main`: the ref
differs from the default branch, yet the code's guard accepts it. -/
def envC3 : Env :=
  ⟨"refs/heads/main", some "develop", "sha-head", some [],
   some [⟨"feat: x", "c1"⟩], some [], [], PreOutcome.noChanges, Option.none⟩

/-- C3 counterexample: a push whose ref is not `refs/heads/<default branch>`
(default branch `develop`) is still fully analyzed and creates a tag, because
the guard also accepts `refs/heads/main` and `refs/heads/master`. -/
theorem branchGuard_counterexample :
    envC3.ref ≠ "refs/heads/" ++ envC3.payloadDefaultBranch.getD "main" ∧
    Effect.createRef "v0.1.0" "sha-head" ∈ (handlePush cfgC3 envC3).effects ∧
    (handlePush cfgC3 envC3).effects ≠ [Effect.setOutput "bump-type" "none"] := by
  decide

/-- C3 (amended): For every push event whose ref is none of
`refs/heads/<default branch>`, `refs/heads/main` and `refs/heads/master`,
the push handler short-circuits: it reports bump-type `none` and performs
no tag analysis or creation. -/
theorem branchGuard_shortCircuit (cfg : Config) (env : Env)
    (h1 : env.ref ≠ "refs/heads/" ++ env.payloadDefaultBranch.getD "main")
    (h2 : env.ref ≠ "refs/heads/main")
    (h3 : env.ref ≠ "refs/heads/master") :
    handlePush cfg env =
      ⟨[Effect.setOutput "bump-type" "none"], Option.none, Option.none⟩ :=
  guardFail_eq (by
    intro hb
    rcases hb with hb | hb | hb
    · exact h1 hb
    · exact h2 hb
    · exact h3 hb)

def cfgW3 : Config := ⟨"v", "0.0.0", FloatingTagMode.major, false, Option.none⟩

def envW3 : Env :=
  ⟨"refs/heads/feature-x", some "main", "headsha", some ["v1.0.0"],
   some [⟨"feat: y", "c1"⟩], some [⟨"feat: y", "c1"⟩], [],
   PreOutcome.noChanges, Option.none⟩

theorem branchGuard_shortCircuit_witness :
    handlePush cfgW3 envW3 =
      ⟨[Effect.setOutput "bump-type" "none"], Option.none, Option.none⟩ :=
  branchGuard_shortCircuit cfgW3 envW3 (by decide) (by decide) (by decide)

/-- C7: A tag-listing failure is recovered as "no tags", a commit-comparison
failure is recovered as "no commits" (the handler behaves exactly as if the
API had returned nothing), and an empty commit list short-circuits to a
`bump-type = none` report with no exception, no tag creation and no other
effect. -/
theorem remoteReadFailures_recovered (cfg : Config) (env : Env) :
    handlePush cfg { env with tagsResult := Option.none } =
      handlePush cfg { env with tagsResult := some [] } ∧
    handlePush cfg { env with listCommitsResult := Option.none, compareResult := Option.none } =
      handlePush cfg { env with listCommitsResult := some [], compareResult := some [] } ∧
    (getCommitsSinceTag env (getLatestTag env.tagsResult cfg.tagPre) = [] →
      handlePush cfg env =
        ⟨[Effect.setOutput "bump-type" "none"], Option.none, Option.none⟩) := by
  refine ⟨rfl, ?_, fun hc => emptyCommits_eq hc⟩
  cases hlt : getLatestTag env.tagsResult cfg.tagPre with
  | none => simp [handlePush, getCommitsSinceTag, hlt]
  | some t => simp [handlePush, getCommitsSinceTag, hlt]

def cfgW7 : Config := ⟨"v", "0.0.0", FloatingTagMode.major, false, Option.none⟩

def envW7 : Env :=
  ⟨"refs/heads/main", some "main", "headsha", some ["v1.0.0"], some [],
   Option.none, [], PreOutcome.noChanges, Option.none⟩

theorem remoteReadFailures_recovered_witness :
    handlePush cfgW7 envW7 =
      ⟨[Effect.setOutput "bump-type" "none"], Option.none, Option.none⟩ :=
  (remoteReadFailures_recovered cfgW7 envW7).2.2 (by decide)

/-! ## Shapes of the release tail -/

lemma finishRelease_error_shape {cfg : Config} {env : Env} {bt : BumpType}
    {nv msg : String}
    (hpre : (runPreRelease cfg.preReleaseCommand env).2 = Except.error msg) :
    finishRelease cfg env bt nv =
      ⟨(runPreRelease cfg.preReleaseCommand env).1, some msg, some nv⟩ := by
  unfold finishRelease
  simp [hpre]

lemma finishRelease_exists_shape {cfg : Config} {env : Env} {bt : BumpType}
    {nv sha : String}
    (hpre : (runPreRelease cfg.preReleaseCommand env).2 = Except.ok sha)
    (hex : cfg.tagPre ++ nv ∈ env.existingRefs) :
    finishRelease cfg env bt nv =
      ⟨(runPreRelease cfg.preReleaseCommand env).1,
       some ("Reference already exists: " ++ (cfg.tagPre ++ nv)), some nv⟩ := by
  unfold finishRelease
  simp [hpre, hex]

lemma finishRelease_ok_shape {cfg : Config} {env : Env} {bt : BumpType}
    {nv sha : String}
    (hpre : (runPreRelease cfg.preReleaseCommand env).2 = Except.ok sha)
    (hnx : cfg.tagPre ++ nv ∉ env.existingRefs) :
    finishRelease cfg env bt nv =
      ⟨(runPreRelease cfg.preReleaseCommand env).1 ++
        [Effect.createRef (cfg.tagPre ++ nv) sha,
         Effect.setOutput "new-tag" (cfg.tagPre ++ nv),
         Effect.setOutput "bump-type" (bumpTypeStr bt)] ++
        (if cfg.createRelease then upsertRelease env (cfg.tagPre ++ nv) else []) ++
        floatingEffects cfg env nv,
       Option.none, some nv⟩ := by
  unfold finishRelease
  simp [hpre, hnx]

lemma finishRelease_thrown_of_existing {cfg : Config} {env : Env}
    {bt : BumpType} {nv : String} (hex : cfg.tagPre ++ nv ∈ env.existingRefs) :
    ∃ msg, finishRelease cfg env bt nv =
      ⟨(runPreRelease cfg.preReleaseCommand env).1, some msg, some nv⟩ := by
  cases hpre : (runPreRelease cfg.preReleaseCommand env).2 with
  | error msg => exact ⟨msg, finishRelease_error_shape hpre⟩
  | ok sha => exact ⟨_, finishRelease_exists_shape hpre hex⟩

lemma runPush_of_thrown {cfg : Config} {env : Env} {effs : List Effect}
    {msg : String} {nv : Option String}
    (h : handlePush cfg env = ⟨effs, some msg, nv⟩) :
    runPush cfg env = effs ++ [Effect.setFailed msg] := by
  unfold runPush
  rw [h]

lemma runFailed_of_thrown {cfg : Config} {env : Env} {effs : List Effect}
    {msg : String} {nv : Option String}
    (h : handlePush cfg env = ⟨effs, some msg, nv⟩) :
    runFailed cfg env = true := by
  unfold runFailed
  rw [runPush_of_thrown h]
  simp [isSetFailed]

lemma mem_runPush_of_thrown_pre {cfg : Config} {env : Env} {msg : String}
    {nv : Option String} {e : Effect}
    (h : handlePush cfg env =
      ⟨(runPreRelease cfg.preReleaseCommand env).1, some msg, nv⟩)
    (he : e ∈ runPush cfg env) :
    ∃ m, e = Effect.setFailed m := by
  rw [runPush_of_thrown h] at he
  rcases List.mem_append.mp he with he | he
  · exact ⟨_, runPreRelease_effects_shape _ _ e he⟩
  · simp only [List.mem_singleton] at he
    exact ⟨msg, he⟩

lemma floatingEffects_majorZero {cfg : Config} {env : Env} {nv : String}
    (h0 : semverMajor nv = 0) : floatingEffects cfg env nv = [] := by
  unfold floatingEffects
  by_cases hm : cfg.floatingTagMode ≠ FloatingTagMode.off
  · simp [hm, h0]
  · simp [hm]

lemma mem_okShape_effects {cfg : Config} {env : Env} {bt : BumpType}
    {nv sha : String} {e : Effect}
    (hpre : (runPreRelease cfg.preReleaseCommand env).2 = Except.ok sha)
    (hnx : cfg.tagPre ++ nv ∉ env.existingRefs)
    (he : e ∈ (finishRelease cfg env bt nv).effects) :
    e = Effect.setFailed "Pre-release command failed" ∨
    e = Effect.createRef (cfg.tagPre ++ nv) sha ∨
    e = Effect.setOutput "new-tag" (cfg.tagPre ++ nv) ∨
    e = Effect.setOutput "bump-type" (bumpTypeStr bt) ∨
    e = Effect.createOrUpdateRelease (cfg.tagPre ++ nv) ∨
    (∃ url, e = Effect.setOutput "release-url" url) ∨
    e ∈ floatingEffects cfg env nv := by
  rw [finishRelease_ok_shape hpre hnx] at he
  have he2 : e ∈ (runPreRelease cfg.preReleaseCommand env).1 ++
      [Effect.createRef (cfg.tagPre ++ nv) sha,
       Effect.setOutput "new-tag" (cfg.tagPre ++ nv),
       Effect.setOutput "bump-type" (bumpTypeStr bt)] ++
      (if cfg.createRelease then upsertRelease env (cfg.tagPre ++ nv) else []) ++
      floatingEffects cfg env nv := he
  rcases List.mem_append.mp he2 with he3 | hfl
  · rcases List.mem_append.mp he3 with he4 | hrel
    · rcases List.mem_append.mp he4 with hpre1 | hlist
      · exact Or.inl (runPreRelease_effects_shape _ _ e hpre1)
      · simp only [List.mem_cons, List.not_mem_nil, or_false] at hlist
        rcases hlist with h | h | h
        · exact Or.inr (Or.inl h)
        · exact Or.inr (Or.inr (Or.inl h))
        · exact Or.inr (Or.inr (Or.inr (Or.inl h)))
    · by_cases hcr : cfg.createRelease
      · rw [if_pos hcr] at hrel
        unfold upsertRelease at hrel
        rcases List.mem_cons.mp hrel with h | h
        · exact Or.inr (Or.inr (Or.inr (Or.inr (Or.inl h))))
        · rcases hurl : env.releaseUrl with _ | url
          · rw [hurl] at h
            simp at h
          · rw [hurl] at h
            simp only [List.mem_singleton] at h
            exact Or.inr (Or.inr (Or.inr (Or.inr (Or.inr (Or.inl ⟨url, h⟩)))))
      · rw [if_neg hcr] at hrel
        simp at hrel
  · exact Or.inr (Or.inr (Or.inr (Or.inr (Or.inr (Or.inr hfl)))))

/-- C5: For every run in which the newly resolved version has major
component 0, no floating tag is created or updated (the only reference
created is the immutable version tag itself) and no floating-tag output is
set, whatever the floating-tag mode. -/
theorem majorZero_noFloating (cfg : Config) (env : Env) (v : String)
    (hv : (handlePush cfg env).newVersion = some v)
    (h0 : semverMajor v = 0) :
    (∀ t s, Effect.updateRef t s ∉ (handlePush cfg env).effects) ∧
    (∀ t s, Effect.createRef t s ∈ (handlePush cfg env).effects →
      t = cfg.tagPre ++ v) ∧
    (∀ w, Effect.setOutput "floating-tag" w ∉ (handlePush cfg env).effects) ∧
    (∀ w, Effect.setOutput "floating-minor-tag" w ∉ (handlePush cfg env).effects) := by
  obtain ⟨bt, heq⟩ := handlePush_newVersion_some hv
  have hfe : floatingEffects cfg env v = [] := floatingEffects_majorZero h0
  rw [heq]
  cases hpre : (runPreRelease cfg.preReleaseCommand env).2 with
  | error msg =>
    rw [@finishRelease_error_shape cfg env bt v msg hpre]
    refine ⟨?_, ?_, ?_, ?_⟩
    · intro t s hmem
      have hsf := runPreRelease_effects_shape _ _ _ hmem
      simp at hsf
    · intro t s hmem
      have hsf := runPreRelease_effects_shape _ _ _ hmem
      simp at hsf
    · intro w hmem
      have hsf := runPreRelease_effects_shape _ _ _ hmem
      simp at hsf
    · intro w hmem
      have hsf := runPreRelease_effects_shape _ _ _ hmem
      simp at hsf
  | ok sha =>
    by_cases hex : cfg.tagPre ++ v ∈ env.existingRefs
    · rw [@finishRelease_exists_shape cfg env bt v sha hpre hex]
      refine ⟨?_, ?_, ?_, ?_⟩
      · intro t s hmem
        have hsf := runPreRelease_effects_shape _ _ _ hmem
        simp at hsf
      · intro t s hmem
        have hsf := runPreRelease_effects_shape _ _ _ hmem
        simp at hsf
      · intro w hmem
        have hsf := runPreRelease_effects_shape _ _ _ hmem
        simp at hsf
      · intro w hmem
        have hsf := runPreRelease_effects_shape _ _ _ hmem
        simp at hsf
    · refine ⟨?_, ?_, ?_, ?_⟩
      · intro t s hmem
        rcases mem_okShape_effects hpre hex hmem with
          h | h | h | h | h | ⟨url, h⟩ | h <;>
          first
            | (simp at h)
            | (rw [hfe] at h; simp at h)
      · intro t s hmem
        rcases mem_okShape_effects hpre hex hmem with
          h | h | h | h | h | ⟨url, h⟩ | h
        · simp at h
        · rw [Effect.createRef.injEq] at h
          exact h.1
        · simp at h
        · simp at h
        · simp at h
        · simp at h
        · rw [hfe] at h
          simp at h
      · intro w hmem
        rcases mem_okShape_effects hpre hex hmem with
          h | h | h | h | h | ⟨url, h⟩ | h <;>
          first
            | (simp at h)
            | (rw [hfe] at h; simp at h)
      · intro w hmem
        rcases mem_okShape_effects hpre hex hmem with
          h | h | h | h | h | ⟨url, h⟩ | h <;>
          first
            | (simp at h)
            | (rw [hfe] at h; simp at h)

def cfgW5 : Config := ⟨"v", "0.0.0", FloatingTagMode.major, false, Option.none⟩

def envW5 : Env :=
  ⟨"refs/heads/main", some "main", "headsha", some [],
   some [⟨"fix: x", "c1"⟩], some [], [], PreOutcome.noChanges, Option.none⟩

theorem majorZero_noFloating_witness :
    Effect.setOutput "floating-tag" "v0" ∉ (handlePush cfgW5 envW5).effects :=
  (majorZero_noFloating cfgW5 envW5 "0.0.1" (by decide) (by decide)).2.2.1 "v0"

/-- C8: Whenever a reference with the immutable version tag's name already
exists, its creation fails, the failure propagates so that the whole run
terminates with a failure status, and the run neither creates nor force-moves
any reference with that name: the existing tag is never overwritten. -/
theorem existingTag_failsRun (cfg : Config) (env : Env) (v : String)
    (hv : (handlePush cfg env).newVersion = some v)
    (hex : cfg.tagPre ++ v ∈ env.existingRefs) :
    runFailed cfg env = true ∧
    (∀ s, Effect.createRef (cfg.tagPre ++ v) s ∉ runPush cfg env) ∧
    (∀ s, Effect.updateRef (cfg.tagPre ++ v) s ∉ runPush cfg env) := by
  obtain ⟨bt, heq⟩ := handlePush_newVersion_some hv
  obtain ⟨msg, hfin⟩ := @finishRelease_thrown_of_existing cfg env bt v hex
  have hres := heq.trans hfin
  refine ⟨runFailed_of_thrown hres, ?_, ?_⟩
  · intro s hs
    obtain ⟨m, hm⟩ := mem_runPush_of_thrown_pre hres hs
    simp at hm
  · intro s hs
    obtain ⟨m, hm⟩ := mem_runPush_of_thrown_pre hres hs
    simp at hm

def cfgW8 : Config := ⟨"v", "0.0.0", FloatingTagMode.off, false, Option.none⟩

def envW8 : Env :=
  ⟨"refs/heads/main", some "main", "headsha", some ["v0.0.1"], some [],
   some [⟨"fix: y", "c1"⟩], ["v0.0.2"], PreOutcome.noChanges, Option.none⟩

theorem existingTag_failsRun_witness :
    runFailed cfgW8 envW8 = true ∧
    Effect.createRef "v0.0.2" "headsha" ∉ runPush cfgW8 envW8 :=
  ⟨(existingTag_failsRun cfgW8 envW8 "0.0.2" (by decide) (by decide)).1,
   (existingTag_failsRun cfgW8 envW8 "0.0.2" (by decide) (by decide)).2.1 "headsha"⟩

/-- C9: For every run with a configured pre-release command, if the command
exits non-zero or any git command in the commit/push chain fails, the run
terminates with a failure status and no reference of any kind is created or
moved: tag creation happens only after the pre-release step has completed
successfully. -/
theorem preReleaseFailure_aborts (cfg : Config) (env : Env) (v cmd : String)
    (hcmd : cfg.preReleaseCommand = some cmd)
    (hv : (handlePush cfg env).newVersion = some v)
    (hfail : env.preOutcome = PreOutcome.cmdFails ∨
      env.preOutcome = PreOutcome.changes Option.none) :
    runFailed cfg env = true ∧
    (∀ t s, Effect.createRef t s ∉ runPush cfg env) ∧
    (∀ t s, Effect.updateRef t s ∉ runPush cfg env) := by
  obtain ⟨bt, heq⟩ := handlePush_newVersion_some hv
  have hpre : ∃ msg,
      (runPreRelease cfg.preReleaseCommand env).2 = Except.error msg := by
    rcases hfail with hf | hf <;> rw [hcmd] <;> simp [runPreRelease, hf]
  obtain ⟨msg, hpre⟩ := hpre
  have hres := heq.trans (@finishRelease_error_shape cfg env bt v msg hpre)
  refine ⟨runFailed_of_thrown hres, ?_, ?_⟩
  · intro t s hs
    obtain ⟨m, hm⟩ := mem_runPush_of_thrown_pre hres hs
    simp at hm
  · intro t s hs
    obtain ⟨m, hm⟩ := mem_runPush_of_thrown_pre hres hs
    simp at hm

def cfgW9 : Config :=
  ⟨"v", "0.0.0", FloatingTagMode.major, false, some "make release"⟩

def envW9 : Env :=
  ⟨"refs/heads/main", some "main", "headsha", some [],
   some [⟨"feat: z", "c1"⟩], some [], [], PreOutcome.cmdFails, Option.none⟩

theorem preReleaseFailure_aborts_witness :
    runFailed cfgW9 envW9 = true ∧
    Effect.createRef "v0.1.0" "headsha" ∉ runPush cfgW9 envW9 :=
  ⟨(preReleaseFailure_aborts cfgW9 envW9 "0.1.0" "make release" rfl (by decide)
      (Or.inl rfl)).1,
   (preReleaseFailure_aborts cfgW9 envW9 "0.1.0" "make release" rfl (by decide)
      (Or.inl rfl)).2.1 "v0.1.0" "headsha"⟩

/-! ## C2: floating tag vs. pre-release commit -/

def cfgC2 : Config :=
  ⟨"v", "0.0.0", FloatingTagMode.major, false, some "bump-files"⟩

/-- Latest tag `v1.4.2`, commits `[feat: a, fix: b]`; the pre-release command
produces changes and the commit/push chain creates commit `newsha`, while the
trigger commit is `oldsha`; floating tag `v1` already exists. -/
def envC2 : Env :=
  ⟨"refs/heads/main", some "main", "oldsha", some ["v1.4.2"], some [],
   some [⟨"feat: a", "c1"⟩, ⟨"fix: b", "c2"⟩], ["v1"],
   PreOutcome.changes (some "newsha"), Option.none⟩

/-- C2 (evaluating the code at the failing input): with a pre-release commit,
the immutable tag `v1.5.0` is created at the pre-release commit `newsha`, but
the floating tag `v1` is force-moved to the trigger commit `oldsha` — a
different commit — contradicting the claim that the floating major tag points
to the same commit as the newly created version tag in every run, including
runs where the pre-release command pushed an extra commit. -/
theorem floatingTag_points_at_trigger_commit :
    (handlePush cfgC2 envC2).newVersion = some "1.5.0" ∧
    Effect.createRef "v1.5.0" "newsha" ∈ (handlePush cfgC2 envC2).effects ∧
    Effect.updateRef "v1" "oldsha" ∈ (handlePush cfgC2 envC2).effects ∧
    Effect.updateRef "v1" "newsha" ∉ (handlePush cfgC2 envC2).effects ∧
    "oldsha" ≠ "newsha" := by
  decide

/-! ## C4: monotonicity of version resolution -/

/-- Strict semver ordering on version strings: both sides parse and the
parses are ordered. -/
def SemverStrLt (a b : String) : Prop :=
  ∃ sa sb, parseSemver a = some sa ∧ parseSemver b = some sb ∧ SemverLt sa sb

/-- C4: Version resolution is monotonic: for every starting version string
accepted by the resolver, the version resolved for bump `major` is strictly
greater in semver order than the one resolved for bump `minor`, which is
strictly greater than the one resolved for bump `patch`. -/
theorem semverInc_monotone (v : String) (s : Semver)
    (h : parseSemver v = some s) :
    ∃ vP vm vM : String,
      semverInc v BumpType.patch = some vP ∧
      semverInc v BumpType.minor = some vm ∧
      semverInc v BumpType.major = some vM ∧
      SemverStrLt vP vm ∧ SemverStrLt vm vM := by
  refine ⟨renderSemver (incSemver s BumpType.patch),
          renderSemver (incSemver s BumpType.minor),
          renderSemver (incSemver s BumpType.major),
          by simp [semverInc, h], by simp [semverInc, h],
          by simp [semverInc, h], ?_, ?_⟩
  · refine ⟨incSemver s BumpType.patch, incSemver s BumpType.minor,
      parseSemver_renderSemver _, parseSemver_renderSemver _, ?_⟩
    rcases s with ⟨M, m, p⟩
    simp [incSemver, SemverLt]
  · refine ⟨incSemver s BumpType.minor, incSemver s BumpType.major,
      parseSemver_renderSemver _, parseSemver_renderSemver _, ?_⟩
    rcases s with ⟨M, m, p⟩
    simp [incSemver, SemverLt]

theorem getLatestTag_maximal_witness :
    getLatestTagFrom ["v1.0.0", "x", "v2.3.4"] "v" = some "v2.3.4" ∧
    SemverLe (verOf "v" "v1.0.0") (verOf "v" "v2.3.4") :=
  ⟨by decide,
   ((getLatestTag_maximal "v" ["v1.0.0", "x", "v2.3.4"] (by decide)
      (by decide)).1 "v2.3.4" (by decide)).2.2.2 "v1.0.0" (by decide)
      (by decide)⟩

theorem semverInc_monotone_witness :
    ∃ vP vm vM : String,
      semverInc "1.2.3" BumpType.patch = some vP ∧
      semverInc "1.2.3" BumpType.minor = some vm ∧
      semverInc "1.2.3" BumpType.major = some vM ∧
      SemverStrLt vP vm ∧ SemverStrLt vm vM :=
  semverInc_monotone "1.2.3" ⟨1, 2, 3⟩ (by decide)

end TagIt
